import Mathlib

/-!
Verification of the s3fs filesystem-emulation layer (package `s3fs`).

This file shallowly embeds the Go source of the repository:
* `File` and its buffered read/write operations (`s3file.go`),
* the tree operations `Exists`, `isDirectory`, `removePrefix` (modelled as
  `removeUnder`), `RemoveAll` and `Walk` (`helpers.go`, `s3fs.go`),
* the multipart upload session (`MultipartUpload` of the upload source file):
  `NewMultipartUpload`, `SetPartSize`, `UploadPart`, `UploadFromReader`.

The S3 object store is modelled as a `Store`: an association list of objects
(last put wins) together with a log of all `PutObject` calls, so that the
number of uploads performed by an operation is observable.  Store listing is
collapsed to a single page (the pagination loops in the source concatenate
pages of one listing; continuation tokens are not modelled).  Store calls that
can fail at the network level are given their outcome as an explicit argument
(an oracle) where a claim depends on failure behaviour.

Bytes are modelled as `Nat` (a Go byte is a value, never computed with here),
byte slices as `List Nat`.  Go errors are the inductive `S3fsError`; a Go
`(value, error)` return becomes either `Except S3fsError value` (when the
receiver is unchanged on error) or `state × Option S3fsError` (for mutating
methods).
-/

set_option autoImplicit false

namespace S3fs

/-- A byte slice. Go bytes are values in `0..255`; no arithmetic is performed
on them in the modelled code, so plain `Nat` is used. -/
abbrev Bytes := List Nat

/-- The error values of the package: the four sentinel errors of the errors
source file, an opaque underlying store error, and `S3Error` (`op`, `path`,
wrapped cause) produced by `wrapError`. -/
inductive S3fsError where
  | errNotExist
  | errInvalidSeek
  | errWriteOnReadFile
  | errReadOnWriteFile
  | storeErr (msg : String)
  | s3Error (op : String) (path : String) (cause : S3fsError)
  deriving DecidableEq, Repr

/-- Go `strings.HasPrefix(s, p)`, written on the character lists of the two
strings (equivalent to the byte test on UTF-8 strings). -/
def strHasPref (s p : String) : Bool :=
  List.isPrefixOf p.data s.data

/-- Go `strings.HasSuffix(s, p)` on character lists. -/
def strHasSuff (s p : String) : Bool :=
  List.isSuffixOf p.data s.data

/-- Go `strings.TrimPrefix(s, "/")` (and the `trimPrefix` helper of the
multipart source file): drop one leading slash when present. -/
def trimLeadingSlash (s : String) : String :=
  if strHasPref s "/" then String.mk (s.data.drop 1) else s

/-- First-match lookup in an association list of objects, as S3 `GetObject`
or `HeadObject` resolves a key (the model puts the newest object first). -/
def lookupKey : List (String × Bytes) → String → Option Bytes
  | [], _ => none
  | kv :: rest, k => if kv.1 = k then some kv.2 else lookupKey rest k

/-- The object store: the current objects (newest entry first, first match
wins on lookup) and a log of every `PutObject` call, newest first. -/
structure Store where
  objects : List (String × Bytes)
  puts : List (String × Bytes)
  deriving DecidableEq, Repr

namespace Store

/-- Go `PutObject`: record the new object (shadowing any older entry) and log
the call. -/
def put (s : Store) (key : String) (body : Bytes) : Store :=
  { objects := (key, body) :: s.objects, puts := (key, body) :: s.puts }

/-- The object currently visible at `key`, if any. -/
def get (s : Store) (key : String) : Option Bytes :=
  lookupKey s.objects key

/-- Go `DeleteObject`: drop every entry for `key`. Deleting an absent key
succeeds, as in S3. -/
def delete (s : Store) (key : String) : Store :=
  { s with objects := s.objects.filter (fun kv => !(kv.1 = key : Bool)) }

/-- Keys of the store in listing order, each key once (S3 lists every live
key exactly once; the listing order is store-defined). -/
def keysAux : List (String × Bytes) → List String → List String
  | [], _ => []
  | kv :: rest, seen =>
      if kv.1 ∈ seen then keysAux rest seen
      else kv.1 :: keysAux rest (kv.1 :: seen)

/-- All distinct keys of the store. -/
def keys (s : Store) : List String :=
  keysAux s.objects []

/-- Go `ListObjectsV2` with a given key prefix, pagination collapsed to one
page: every distinct live key starting with `p`. -/
def listUnder (s : Store) (p : String) : List String :=
  (s.keys).filter (fun k => strHasPref k p)

/-- Go `HeadObject` against the modelled store: succeeds exactly on live keys. -/
def headFn (s : Store) : String → Except String Nat :=
  fun k =>
    match s.get k with
    | some body => .ok body.length
    | none => .error "NotFound"

end Store

/-- The fields of `os.FileInfo` produced by this package (`fileInfo` in the
source; the modification time is never inspected by the modelled code and is
omitted). -/
structure FileInfo where
  name : String
  size : Nat
  isDir : Bool
  deriving DecidableEq, Repr

/-- Go `path.Base`: empty string gives ".", trailing slashes are removed,
then the last path component is returned ("/" if nothing remains). -/
def pathBase (s : String) : String :=
  if s = "" then "." else
    let cs := (s.toList.reverse.dropWhile (fun c => c = '/')).reverse
    if cs = [] then "/" else
      String.mk ((cs.reverse.takeWhile (fun c => !(c = '/' : Bool))).reverse)

/-- Go `File` of `s3file.go`: the per-open-file state.  The streaming read body
is not modelled (no claim touches the read stream); `offset` is the logical
position, an `int64` modelled as `Int` (no write in the source can overflow
it in any modelled scenario). -/
structure File where
  name : String
  key : String
  writing : Bool
  buffer : Bytes
  offset : Int
  deriving DecidableEq, Repr

/-- Go `os.O_RDONLY`. -/
def O_RDONLY : Nat := 0
/-- Go `os.O_WRONLY`. -/
def O_WRONLY : Nat := 1
/-- Go `os.O_RDWR`. -/
def O_RDWR : Nat := 2
/-- Go `os.O_CREATE`. -/
def O_CREATE : Nat := 64

namespace FileSystem

/-- Go `FileSystem.OpenFile`: write mode whenever the flag intersects
`O_WRONLY|O_RDWR|O_CREATE`, read mode otherwise; the write buffer starts
empty; the error result is always nil in the source. -/
def OpenFile (name : String) (flag : Nat) : File :=
  let n := trimLeadingSlash name
  if flag &&& (O_WRONLY ||| O_RDWR ||| O_CREATE) ≠ 0 then
    { name := n, key := n, writing := true, buffer := [], offset := 0 }
  else
    { name := n, key := n, writing := false, buffer := [], offset := 0 }

end FileSystem

namespace File

/-- Go `File.Write`: mode check, then append to the in-memory buffer and
advance the offset; returns the full length written.  No store call. -/
def Write (f : File) (b : Bytes) : Except S3fsError (File × Nat) :=
  if f.writing = false then .error .errWriteOnReadFile
  else .ok ({ f with buffer := f.buffer ++ b, offset := f.offset + b.length }, b.length)

/-- Go `File.WriteAt`: mode check; extend the buffer with a zero-filled tail
when `off + len b` exceeds the current length (Go `make` zero-fills, `copy`
preserves the old contents), then overlay `b` at `off`.  Offsets are `Nat`:
a negative offset would panic in the Go source. -/
def WriteAt (f : File) (b : Bytes) (off : Nat) : Except S3fsError (File × Nat) :=
  if f.writing = false then .error .errWriteOnReadFile
  else
    let buf :=
      if f.buffer.length < off + b.length then
        f.buffer ++ List.replicate (off + b.length - f.buffer.length) 0
      else f.buffer
    .ok ({ f with buffer := buf.take off ++ b ++ buf.drop (off + b.length) }, b.length)

/-- The `whence` argument of `Seek` (`io.SeekStart`, `io.SeekCurrent`,
`io.SeekEnd`). -/
inductive Whence where
  | seekStart
  | seekCurrent
  | seekEnd
  deriving DecidableEq, Repr

/-- Go `File.Seek`: set or shift the offset; `io.SeekEnd` fails with
`ErrInvalidSeek` and leaves the file unchanged.  No mode check and no
validation of the resulting position appear in the source. -/
def Seek (f : File) (offset : Int) (whence : Whence) : Except S3fsError (File × Int) :=
  match whence with
  | .seekStart => .ok ({ f with offset := offset }, offset)
  | .seekCurrent => .ok ({ f with offset := f.offset + offset }, f.offset + offset)
  | .seekEnd => .error .errInvalidSeek

/-- Go `File.Close` against the modelled store: a write-mode file puts the
whole buffer at its key (the put is logged); a read-mode file only releases
the stream, which the model does not track.  The source resets no field of
the file, so the file value itself is unchanged by a close. -/
def Close (f : File) (s : Store) : Store × Option S3fsError :=
  if f.writing then (s.put f.key f.buffer, none) else (s, none)

end File

/-- One sequential operation on a write-mode file: a `Write` or a `Seek`
(the operations whose interleaving claim C9 is about). -/
inductive WOp where
  | write (b : Bytes)
  | seek (off : Int) (w : File.Whence)
  deriving DecidableEq, Repr

/-- Apply one operation to the file state, keeping the state unchanged when
the operation returns an error (as the Go methods do). -/
def File.applyOp (f : File) (op : WOp) : File :=
  match op with
  | .write b =>
      match File.Write f b with
      | .ok r => r.1
      | .error _ => f
  | .seek off w =>
      match File.Seek f off w with
      | .ok r => r.1
      | .error _ => f

/-- Run a sequence of operations left to right. -/
def File.runOps (f : File) (ops : List WOp) : File :=
  ops.foldl File.applyOp f

/-- The bytes an operation contributes to the write buffer. -/
def WOp.writtenBytes : WOp → Bytes
  | .write b => b
  | .seek _ _ => []

namespace FileSystem

/-- Go `FileSystem.Stat`: trim the leading slash, issue `HeadObject` through
the given client function, wrap a failure with `wrapError("Stat", name, _)`,
and otherwise build the file info (`path.Base` name, reported size, `isDir`
from the trailing-slash convention). -/
def Stat (head : String → Except String Nat) (name : String) :
    Except S3fsError FileInfo :=
  let n := trimLeadingSlash name
  match head n with
  | .error e => .error (.s3Error "Stat" n (.storeErr e))
  | .ok size => .ok { name := pathBase n, size := size, isDir := strHasSuff n "/" }

/-- Go `FileSystem.Exists`: probe with `Stat`; any failure is collapsed to
`(false, nil)`, success to `(true, nil)`. -/
def Exists (head : String → Except String Nat) (name : String) :
    Bool × Option S3fsError :=
  match Stat head name with
  | .error _ => (false, none)
  | .ok _ => (true, none)

/-- Go `FileSystem.isDirectory`: append a trailing slash when missing, list one
page under the prefix, and report whether anything was listed. -/
def isDirectoryB (s : Store) (name : String) : Bool :=
  let n := if strHasSuff name "/" then name else name ++ "/"
  !(s.listUnder n).isEmpty

/-- Go `FileSystem.removePrefix`: list every object under the prefix and delete
each one (`Remove` is a plain `DeleteObject`). -/
def removeUnder (s : Store) (p : String) : Store :=
  (s.listUnder p).foldl Store.delete s

/-- Go `FileSystem.RemoveAll`: trim the leading slash; for a name with no
trailing slash, probe `isDirectory(name ++ "/")` and on success treat the
name as a directory; then delete the whole prefix for directories and the
single object otherwise. -/
def RemoveAll (s : Store) (name : String) : Store :=
  let n := trimLeadingSlash name
  let n :=
    if !(strHasSuff n "/") then
      if isDirectoryB s (n ++ "/") then n ++ "/" else n
    else n
  if strHasSuff n "/" then removeUnder s n
  else Store.delete s n

/-- Go `FileSystem.Walk`, restricted to the keys passed to the visit callback
(the callback itself is total here; no claim concerns a failing callback).
A nonempty root with no trailing slash is first probed with `Stat`: on
success a non-directory is visited alone, otherwise the root gains a
trailing slash and every distinct key under it is visited in listing
order. -/
def walkVisited (s : Store) (root : String) : List String :=
  let r := trimLeadingSlash root
  if !(r = "" : Bool) && !(strHasSuff r "/") then
    match Stat (Store.headFn s) r with
    | .ok info => if !info.isDir then [r] else s.listUnder (r ++ "/")
    | .error _ => s.listUnder (r ++ "/")
  else s.listUnder r

end FileSystem

/-- Go `MinPartSize`: 5 MB, the smallest part S3 accepts. -/
def MinPartSize : Nat := 5 * 1024 * 1024

/-- Go `DefaultPartSize`: 10 MB. -/
def DefaultPartSize : Nat := 10 * 1024 * 1024

/-- Go `MultipartUpload` of the multipart source file: the session state.  A
completed part record holds the store-issued ETag and its part number. -/
structure MultipartUpload where
  key : String
  uploadID : String
  partNumber : Nat
  parts : List (String × Nat)
  partSize : Nat
  deriving DecidableEq, Repr

/-- Go `FileSystem.NewMultipartUpload` on the success path: the store issued
`uploadID`; the counter starts at 1, the parts list empty, the part size at
the default. -/
def newMultipartUpload (key uploadID : String) : MultipartUpload :=
  { key := trimLeadingSlash key
    uploadID := uploadID
    partNumber := 1
    parts := []
    partSize := DefaultPartSize }

namespace MultipartUpload

/-- Go `SetPartSize`: sizes below `MinPartSize` fail with
`wrapError("SetPartSize", key, ErrInvalidSeek)` (the sentinel the source
reuses) and leave the session unchanged; otherwise the part size is set.
The source checks nothing else. -/
def SetPartSize (mu : MultipartUpload) (size : Nat) :
    MultipartUpload × Option S3fsError :=
  if size < MinPartSize then
    (mu, some (.s3Error "SetPartSize" mu.key .errInvalidSeek))
  else
    ({ mu with partSize := size }, none)

/-- Go `UploadPart`: the store response for this part (`resp`) is an explicit
argument — an ETag on success, an error otherwise.  On success the part
record is appended and the counter advances; on failure the wrapped error is
returned and the session is untouched.  The payload `data` itself is only
sent to the store. -/
def UploadPart (mu : MultipartUpload) (data : Bytes) (resp : Except String String) :
    MultipartUpload × Option S3fsError :=
  match resp with
  | .error e => (mu, some (.s3Error "UploadPart" mu.key (.storeErr e)))
  | .ok etag =>
      ({ mu with
          parts := mu.parts ++ [(etag, mu.partNumber)]
          partNumber := mu.partNumber + 1 }, none)

end MultipartUpload

/-- The session invariant of the spec: the counter is at least 1, the parts
list has length `partNumber - 1`, and the recorded part numbers are
`1, 2, …` in ascending submission order. -/
def sessionInv (mu : MultipartUpload) : Prop :=
  1 ≤ mu.partNumber ∧
  mu.parts.length = mu.partNumber - 1 ∧
  mu.parts.map Prod.snd = List.range' 1 mu.parts.length

instance (mu : MultipartUpload) : Decidable (sessionInv mu) := by
  unfold sessionInv; infer_instance

/-- Ceiling division on naturals. -/
def ceilParts (n p : Nat) : Nat := (n + p - 1) / p

/-- Go `UploadFromReader`.  The reader is modelled by its byte stream `src`
followed by `pe`: `none` means the stream ends in `io.EOF`, `some e` means
it ends in the real error `e`.  `io.ReadFull` on a buffer of `partSize`
bytes therefore yields `min partSize src.length` bytes; it reports a real
error only when the buffer could not be filled and `pe` is set, `EOF` or
`ErrUnexpectedEOF` otherwise (the loop treats those as clean exhaustion).
`oracle i` is the store response to the `i`-th `UploadPart` call.  The
result carries the final session, the chunks handed to `UploadPart` in
order, and the error returned by the loop. -/
def MultipartUpload.uploadFromReaderGo (oracle : Nat → Except String String) :
    MultipartUpload → Bytes → Option String → Nat →
    MultipartUpload × List Bytes × Option S3fsError
  | mu, src, pe, i =>
    if min mu.partSize src.length < mu.partSize && pe.isSome then
      (mu, [], some (.s3Error "UploadFromReader" mu.key (.storeErr (pe.getD ""))))
    else if h0 : min mu.partSize src.length = 0 then
      (mu, [], none)
    else
      match MultipartUpload.UploadPart mu (src.take (min mu.partSize src.length)) (oracle i) with
      | (_, some err) => (mu, [src.take (min mu.partSize src.length)], some err)
      | (mu2, none) =>
          if min mu.partSize src.length < mu.partSize then
            (mu2, [src.take (min mu.partSize src.length)], none)
          else
            let r := MultipartUpload.uploadFromReaderGo oracle mu2
              (src.drop (min mu.partSize src.length)) pe (i + 1)
            (r.1, src.take (min mu.partSize src.length) :: r.2.1, r.2.2)
  termination_by _ src _ _ => src.length
  decreasing_by
    simp only [List.length_drop]
    have hle : min mu.partSize src.length ≤ src.length := Nat.min_le_right _ _
    omega


/-! ## Helper lemmas -/

theorem lookupKey_cons (kv : String × Bytes) (l : List (String × Bytes)) (k : String) :
    lookupKey (kv :: l) k = if kv.1 = k then some kv.2 else lookupKey l k := rfl

theorem get_put (s : Store) (key : String) (body : Bytes) (k : String) :
    Store.get (s.put key body) k = if key = k then some body else Store.get s k := rfl

/-! ## C1 — a second close re-uploads -/

/-- Concrete write-mode handle for the close-twice scenario. -/
def c1File : File :=
  { name := "k", key := "k", writing := true, buffer := [104, 105], offset := 0 }

/-- The store after the first close of `c1File` on an empty store. -/
def c1Store1 : Store := (File.Close c1File { objects := [], puts := [] }).1

/-- The store after a second close of the same handle. -/
def c1Store2 : Store := (File.Close c1File c1Store1).1

/-- C1, counterexample: closing the concrete write-mode handle twice does
not leave the store with a single put — the second close puts the buffer
again (two logged puts), so the claim "the object is put exactly once and a
second close leaves the store state unchanged" is false on the code. -/
theorem C1_close_twice_counterexample :
    ¬ ((c1Store2.puts.length = 1) ∧ c1Store2 = c1Store1) := by decide

/-- C1 (amended): every close of a write-mode handle uploads the buffer:
the second close performs a second put of the same bytes at the same key,
so the put log grows again; because the buffer is unchanged between the two
closes, the visible object mapping is unchanged by the second close. -/
theorem C1_close_twice_reuploads (f : File) (s : Store) (hw : f.writing = true) :
    (File.Close f s).2 = none ∧
    ((File.Close f s).1).puts = (f.key, f.buffer) :: s.puts ∧
    ((File.Close f (File.Close f s).1).1).puts
      = (f.key, f.buffer) :: ((File.Close f s).1).puts ∧
    ∀ k, Store.get (File.Close f (File.Close f s).1).1 k
      = Store.get (File.Close f s).1 k := by
  refine ⟨?_, ?_, ?_, ?_⟩ <;> simp only [File.Close, hw, if_pos, Store.put]
  · intro k
    simp only [Store.get, lookupKey]
    split <;> rfl

/-- C1 witness: the amended statement evaluated on the concrete handle. -/
theorem C1_close_twice_reuploads_witness :
    (File.Close c1File { objects := [], puts := [] }).2 = none ∧
    c1Store1.puts = [("k", [104, 105])] ∧
    c1Store2.puts = [("k", [104, 105]), ("k", [104, 105])] ∧
    ∀ k, Store.get c1Store2 k = Store.get c1Store1 k :=
  C1_close_twice_reuploads c1File { objects := [], puts := [] } rfl

/-! ## C10 — seek performs no validation and no mode check -/

/-- C10: seek from start or from current always succeeds, for every handle
in either mode and every offset including negative ones; the resulting
position is stored and returned unvalidated, and the outcome never depends
on the mode flag. -/
theorem C10_seek_unchecked (f : File) (off : Int) :
    File.Seek f off .seekStart = .ok ({ f with offset := off }, off) ∧
    File.Seek f off .seekCurrent
      = .ok ({ f with offset := f.offset + off }, f.offset + off) ∧
    ∀ w, (File.Seek { f with writing := true } off w).map (fun p => (p.1.offset, p.2))
       = (File.Seek { f with writing := false } off w).map (fun p => (p.1.offset, p.2)) := by
  refine ⟨rfl, rfl, ?_⟩
  intro w
  cases w <;> rfl

/-! ## C8 — exists collapses every probe failure to false -/

/-- C8: for every probe outcome function and every key, `Exists` returns
true exactly when the `Stat` probe succeeds, and its error result is nil in
every case — no probe failure, not-found or otherwise, is propagated. -/
theorem C8_exists_iff_stat (head : String → Except String Nat) (name : String) :
    ((FileSystem.Exists head name).1 = true
      ↔ ∃ fi, FileSystem.Stat head name = .ok fi) ∧
    (FileSystem.Exists head name).2 = none := by
  unfold FileSystem.Exists
  rcases h : FileSystem.Stat head name with e | fi <;> simp [h]

/-! ## C4 — sequential writes concatenate and upload once at close -/

/-- C4: writing `b1` then `b2` on a freshly opened write-mode handle
buffers the concatenation (each write returning its full length, touching
no store state), and the close performs the single put of `b1 ++ b2` at the
key, after which the object is visible. -/
theorem C4_write_write_close (name : String) (b1 b2 : Bytes) (s : Store) :
    ∃ f1 f2 : File,
      File.Write (FileSystem.OpenFile name O_WRONLY) b1 = .ok (f1, b1.length) ∧
      File.Write f1 b2 = .ok (f2, b2.length) ∧
      f2.buffer = b1 ++ b2 ∧
      f2.key = trimLeadingSlash name ∧
      (File.Close f2 s).1.puts = (trimLeadingSlash name, b1 ++ b2) :: s.puts ∧
      Store.get (File.Close f2 s).1 (trimLeadingSlash name) = some (b1 ++ b2) ∧
      (File.Close f2 s).2 = none := by
  have hopen : FileSystem.OpenFile name O_WRONLY
      = { name := trimLeadingSlash name, key := trimLeadingSlash name,
          writing := true, buffer := [], offset := 0 } := by
    unfold FileSystem.OpenFile
    rw [if_pos (by decide)]
  refine ⟨{ name := trimLeadingSlash name, key := trimLeadingSlash name,
            writing := true, buffer := b1, offset := 0 + (b1.length : Int) },
          { name := trimLeadingSlash name, key := trimLeadingSlash name,
            writing := true, buffer := b1 ++ b2,
            offset := 0 + (b1.length : Int) + (b2.length : Int) },
          ?_, ?_, rfl, rfl, ?_, ?_, ?_⟩
  · rw [hopen]; simp [File.Write]
  · simp [File.Write]
  · simp [File.Close, Store.put]
  · simp [File.Close, Store.put, Store.get, lookupKey]
  · simp [File.Close]

/-! ## C9 — the stored object ignores seeks -/

/-- On a write-mode file, one operation preserves mode and key and appends
exactly the bytes of a write (a seek leaves the buffer untouched). -/
theorem applyOp_writing (f : File) (op : WOp) (hw : f.writing = true) :
    (File.applyOp f op).writing = true ∧
    (File.applyOp f op).key = f.key ∧
    (File.applyOp f op).buffer = f.buffer ++ op.writtenBytes := by
  cases op with
  | write b => simp [File.applyOp, File.Write, hw, WOp.writtenBytes]
  | seek off w => cases w <;> simp [File.applyOp, File.Seek, WOp.writtenBytes, hw]

/-- The buffer after a sequence of writes and seeks is the initial buffer
followed by the written payloads in order, with no dependence on the seeks. -/
theorem runOps_buffer (ops : List WOp) (f : File) (hw : f.writing = true) :
    (File.runOps f ops).writing = true ∧
    (File.runOps f ops).key = f.key ∧
    (File.runOps f ops).buffer = f.buffer ++ (ops.map WOp.writtenBytes).flatten := by
  induction ops generalizing f with
  | nil => simp [File.runOps, hw]
  | cons op rest ih =>
    have happ := applyOp_writing f op hw
    have hrec := ih (File.applyOp f op) happ.1
    have hstep : File.runOps f (op :: rest) = File.runOps (File.applyOp f op) rest := rfl
    refine ⟨by rw [hstep]; exact hrec.1, ?_, ?_⟩
    · rw [hstep, hrec.2.1, happ.2.1]
    · rw [hstep, hrec.2.2, happ.2.2]
      simp [List.append_assoc]

/-- C9: for a write-mode handle, the buffer produced by any interleaving of
writes and seeks — and hence the object put at close — is the initial
buffer followed by the concatenated write payloads; the seek offsets do not
appear in the result, so a seek before a write does not relocate the write. -/
theorem C9_close_ignores_seeks (f : File) (ops : List WOp) (s : Store)
    (hw : f.writing = true) :
    (File.runOps f ops).buffer = f.buffer ++ (ops.map WOp.writtenBytes).flatten ∧
    (File.Close (File.runOps f ops) s).1.puts
      = (f.key, f.buffer ++ (ops.map WOp.writtenBytes).flatten) :: s.puts ∧
    (File.Close (File.runOps f ops) s).2 = none := by
  have h := runOps_buffer ops f hw
  refine ⟨h.2.2, ?_, ?_⟩ <;>
    simp [File.Close, h.1, h.2.1, h.2.2, Store.put]

/-- Concrete handle for the C9 witness. -/
def c9File : File :=
  { name := "k", key := "k", writing := true, buffer := [1], offset := 0 }

/-- A seek to offset 9 followed by a write: the write still lands at the
end of the buffer. -/
def c9Ops : List WOp := [WOp.seek 9 .seekStart, WOp.write [2, 3]]

/-- C9 witness: after seeking to 9 and writing, the close puts
`[1, 2, 3]` — the write appended, ignoring the seek. -/
theorem C9_close_ignores_seeks_witness :
    (File.runOps c9File c9Ops).buffer = [1, 2, 3] ∧
    (File.Close (File.runOps c9File c9Ops) { objects := [], puts := [] }).1.puts
      = [("k", [1, 2, 3])] ∧
    (File.Close (File.runOps c9File c9Ops) { objects := [], puts := [] }).2 = none :=
  C9_close_ignores_seeks c9File c9Ops { objects := [], puts := [] } rfl

/-! ## C7 — writeAt grows with zero fill and never shrinks -/

/-- Closed form of a growing `WriteAt`: the retained prefix, the zero gap,
then the new bytes. -/
theorem writeAt_grow_eq (f : File) (b : Bytes) (off : Nat) (hw : f.writing = true)
    (hg : f.buffer.length < off + b.length) :
    File.WriteAt f b off =
      .ok ({ f with buffer :=
               f.buffer.take off ++ List.replicate (off - f.buffer.length) 0 ++ b },
           b.length) := by
  unfold File.WriteAt
  rw [hw]
  simp only [Bool.true_eq_false, if_false, if_pos hg, reduceIte]
  have hlen : (f.buffer ++ List.replicate (off + b.length - f.buffer.length) 0).length
      = off + b.length := by
    simp; omega
  have hdrop : (f.buffer ++ List.replicate (off + b.length - f.buffer.length) 0).drop
      (off + b.length) = [] :=
    List.drop_eq_nil_of_le (by omega)
  have htake : (f.buffer ++ List.replicate (off + b.length - f.buffer.length) 0).take off
      = f.buffer.take off ++ List.replicate (off - f.buffer.length) 0 := by
    rw [List.take_append_eq_append_take, List.take_replicate]
    congr 2
    omega
  rw [hdrop, htake]
  simp

/-- C7: when `off + len b` exceeds the buffer length, `WriteAt` on a
write-mode handle succeeds returning the full length, grows the buffer to
exactly `off + len b`, keeps the original bytes below `off`, zero-fills the
gap between the old length and `off`, and overlays the new bytes at `off`;
and (second clause) no successful `WriteAt` ever shrinks the buffer. -/
theorem C7_writeAt_grows_zero_fill :
    (∀ (f : File) (b : Bytes) (off : Nat), f.writing = true →
      f.buffer.length < off + b.length →
      ∃ f2 : File, File.WriteAt f b off = .ok (f2, b.length) ∧
        f2.buffer.length = off + b.length ∧
        (∀ i, i < f.buffer.length → i < off → f2.buffer[i]? = f.buffer[i]?) ∧
        (∀ i, f.buffer.length ≤ i → i < off → f2.buffer[i]? = some 0) ∧
        (∀ i, i < b.length → f2.buffer[off + i]? = b[i]?)) ∧
    (∀ (f : File) (b : Bytes) (off : Nat) (f2 : File) (n : Nat),
      File.WriteAt f b off = .ok (f2, n) →
      f.buffer.length ≤ f2.buffer.length) := by
  constructor
  · intro f b off hw hg
    refine ⟨_, writeAt_grow_eq f b off hw hg, ?_, ?_, ?_, ?_⟩
    · simp; omega
    · intro i hiL hioff
      show ((List.take off f.buffer ++ List.replicate (off - f.buffer.length) 0) ++ b)[i]?
          = f.buffer[i]?
      have h2 : (List.take off f.buffer ++
          List.replicate (off - f.buffer.length) (0:Nat)).length = off := by
        simp; omega
      rw [List.getElem?_append, if_pos (by rw [h2]; omega),
        List.getElem?_append, if_pos (by simp; omega),
        List.getElem?_take_of_lt hioff]
    · intro i hiL hioff
      show ((List.take off f.buffer ++ List.replicate (off - f.buffer.length) 0) ++ b)[i]?
          = some 0
      have h1 : (List.take off f.buffer).length = f.buffer.length := by
        simp; omega
      have h2 : (List.take off f.buffer ++
          List.replicate (off - f.buffer.length) (0:Nat)).length = off := by
        simp; omega
      rw [List.getElem?_append, if_pos (by rw [h2]; omega),
        List.getElem?_append, if_neg (by rw [h1]; omega), h1,
        List.getElem?_replicate, if_pos (by omega)]
    · intro i hib
      show ((List.take off f.buffer ++ List.replicate (off - f.buffer.length) 0) ++ b)[off + i]?
          = b[i]?
      have h2 : (List.take off f.buffer ++
          List.replicate (off - f.buffer.length) (0:Nat)).length = off := by
        simp; omega
      rw [List.getElem?_append, if_neg (by rw [h2]; omega), h2]
      have hidx : off + i - off = i := by omega
      rw [hidx]
  · intro f b off f2 n h
    unfold File.WriteAt at h
    by_cases hw : f.writing = false
    · rw [if_pos hw] at h; cases h
    · rw [if_neg hw] at h
      simp only [Except.ok.injEq, Prod.mk.injEq] at h
      have hb : f2.buffer = _ := congrArg File.buffer h.1.symm
      rw [hb]
      by_cases hg : f.buffer.length < off + b.length <;>
        simp [hg] <;> omega

/-- Concrete write-mode handle for the C7 witness. -/
def c7File : File :=
  { name := "k", key := "k", writing := true, buffer := [7, 8, 9], offset := 0 }

/-- C7 witness: writing `[5, 6]` at offset 6 into a 3-byte buffer grows it
to 8 bytes with a zero gap, and the buffer never shrinks. -/
theorem C7_writeAt_grows_zero_fill_witness :
    (∃ f2 : File, File.WriteAt c7File [5, 6] 6 = .ok (f2, 2) ∧
      f2.buffer.length = 8 ∧
      (∀ i, i < c7File.buffer.length → i < 6 → f2.buffer[i]? = c7File.buffer[i]?) ∧
      (∀ i, c7File.buffer.length ≤ i → i < 6 → f2.buffer[i]? = some 0) ∧
      (∀ i, i < 2 → f2.buffer[6 + i]? = [5, 6][i]?)) ∧
    (3 : Nat) ≤ 8 :=
  ⟨C7_writeAt_grows_zero_fill.1 c7File [5, 6] 6 rfl (by decide),
   C7_writeAt_grows_zero_fill.2 c7File [5, 6] 6
     { c7File with buffer := [7, 8, 9, 0, 0, 0, 5, 6] } 2 rfl⟩

/-! ## C2 — directory resolution in RemoveAll and Walk -/

theorem lookupKey_filter_ne (l : List (String × Bytes)) (k k2 : String) :
    lookupKey (l.filter (fun kv => !(kv.1 = k : Bool))) k2
      = if k2 = k then none else lookupKey l k2 := by
  induction l with
  | nil => simp [lookupKey]
  | cons kv rest ih =>
    rw [List.filter_cons]
    by_cases hkk : kv.1 = k
    · rw [if_neg (by simp [hkk]), ih]
      by_cases h2 : k2 = k
      · simp [h2]
      · rw [if_neg h2, if_neg h2, lookupKey_cons,
          if_neg (fun hh => h2 (by rw [← hh]; exact hkk))]
    · rw [if_pos (by simp [hkk]), lookupKey_cons, ih]
      by_cases hv : kv.1 = k2
      · rw [if_pos hv, if_neg (fun h2 => hkk (hv.trans h2)), lookupKey_cons, if_pos hv]
      · rw [if_neg hv]
        by_cases h2 : k2 = k
        · simp [h2]
        · rw [if_neg h2, if_neg h2, lookupKey_cons, if_neg hv]

theorem get_delete (s : Store) (k k2 : String) :
    Store.get (s.delete k) k2 = if k2 = k then none else Store.get s k2 :=
  lookupKey_filter_ne s.objects k k2

theorem get_foldl_delete (ks : List String) (s : Store) (k : String) :
    Store.get (ks.foldl Store.delete s) k
      = if k ∈ ks then none else Store.get s k := by
  induction ks generalizing s with
  | nil => simp
  | cons k0 rest ih =>
    rw [List.foldl_cons, ih, get_delete]
    by_cases hk : k ∈ rest
    · simp [hk]
    · by_cases h0 : k = k0
      · simp [h0, hk]
      · simp [hk, h0]

theorem mem_keysAux (l : List (String × Bytes)) (seen : List String) (k : String) :
    k ∈ Store.keysAux l seen ↔ (k ∈ l.map Prod.fst ∧ k ∉ seen) := by
  induction l generalizing seen with
  | nil => simp [Store.keysAux]
  | cons kv rest ih =>
    rw [Store.keysAux]
    by_cases hs : kv.1 ∈ seen
    · rw [if_pos hs, ih]
      simp only [List.map_cons, List.mem_cons]
      constructor
      · rintro ⟨h1, h2⟩
        exact ⟨Or.inr h1, h2⟩
      · rintro ⟨h1 | h1, h2⟩
        · exact absurd (h1 ▸ hs) h2
        · exact ⟨h1, h2⟩
    · rw [if_neg hs]
      simp only [List.mem_cons, ih, List.map_cons]
      constructor
      · rintro (h | ⟨h1, h2⟩)
        · subst h
          exact ⟨Or.inl rfl, hs⟩
        · exact ⟨Or.inr h1, fun hseen => h2 (Or.inr hseen)⟩
      · rintro ⟨h1 | h1, h2⟩
        · exact Or.inl h1
        · by_cases hk0 : k = kv.1
          · exact Or.inl hk0
          · refine Or.inr ⟨h1, fun hseen => ?_⟩
            rcases hseen with h | h
            · exact hk0 h
            · exact h2 h

theorem lookupKey_ne_none_iff (l : List (String × Bytes)) (k : String) :
    lookupKey l k ≠ none ↔ k ∈ l.map Prod.fst := by
  induction l with
  | nil => simp [lookupKey]
  | cons kv rest ih =>
    rw [lookupKey_cons]
    by_cases h : kv.1 = k
    · simp [h]
    · have h2 : ¬ k = kv.1 := fun hh => h hh.symm
      simp [h, h2, ih]

theorem mem_keys_iff (s : Store) (k : String) :
    k ∈ s.keys ↔ Store.get s k ≠ none := by
  rw [Store.keys, mem_keysAux, Store.get, lookupKey_ne_none_iff]
  simp

theorem mem_listUnder_iff (s : Store) (p k : String) :
    k ∈ s.listUnder p ↔ (k ∈ s.keys ∧ strHasPref k p = true) :=
  List.mem_filter

theorem get_removeUnder (s : Store) (p k : String) (hp : strHasPref k p = true) :
    Store.get (FileSystem.removeUnder s p) k = none := by
  rw [FileSystem.removeUnder, get_foldl_delete]
  by_cases hk : k ∈ s.listUnder p
  · simp [hk]
  · rw [if_neg hk]
    by_cases hg : Store.get s k = none
    · exact hg
    · exact absurd ((mem_listUnder_iff s p k).mpr ⟨(mem_keys_iff s k).mpr hg, hp⟩) hk

theorem trimLeadingSlash_noop (s : String) (h : strHasPref s "/" = false) :
    trimLeadingSlash s = s := by
  simp [trimLeadingSlash, h]

theorem strHasSuff_append_slash (x : String) : strHasSuff (x ++ "/") "/" = true := by
  simp only [strHasSuff, String.data_append, List.isSuffixOf_iff_suffix]
  exact List.suffix_append _ _

theorem isDirectoryB_true (s : Store) (d : String) (hd : strHasSuff d "/" = true)
    (h : s.listUnder d ≠ []) : FileSystem.isDirectoryB s d = true := by
  unfold FileSystem.isDirectoryB
  rw [if_pos hd]
  simpa using h

theorem removeAll_dir_eq (s : Store) (name : String)
    (h0 : strHasPref name "/" = false) (h1 : strHasSuff name "/" = false)
    (h2 : s.listUnder (name ++ "/") ≠ []) :
    FileSystem.RemoveAll s name = FileSystem.removeUnder s (name ++ "/") := by
  unfold FileSystem.RemoveAll
  simp only [trimLeadingSlash_noop name h0, h1, Bool.not_false, if_true,
    isDirectoryB_true s (name ++ "/") (strHasSuff_append_slash name) h2,
    strHasSuff_append_slash]

theorem stat_store_some (s : Store) (name : String) (body : Bytes)
    (h0 : strHasPref name "/" = false) (hobj : Store.get s name = some body) :
    FileSystem.Stat (Store.headFn s) name
      = .ok { name := pathBase name, size := body.length,
              isDir := strHasSuff name "/" } := by
  unfold FileSystem.Stat Store.headFn
  rw [trimLeadingSlash_noop name h0]
  simp only [hobj]

theorem stat_store_none (s : Store) (name : String)
    (h0 : strHasPref name "/" = false) (hobj : Store.get s name = none) :
    FileSystem.Stat (Store.headFn s) name
      = .error (.s3Error "Stat" name (.storeErr "NotFound")) := by
  unfold FileSystem.Stat Store.headFn
  rw [trimLeadingSlash_noop name h0]
  simp only [hobj]

theorem walkVisited_file (s : Store) (name : String) (body : Bytes)
    (hne : ¬ name = "") (h0 : strHasPref name "/" = false)
    (h1 : strHasSuff name "/" = false) (hobj : Store.get s name = some body) :
    FileSystem.walkVisited s name = [name] := by
  unfold FileSystem.walkVisited
  rw [trimLeadingSlash_noop name h0]
  rw [if_pos (by simp [hne, h1])]
  rw [stat_store_some s name body h0 hobj]
  simp [h1]

theorem walkVisited_dir (s : Store) (name : String)
    (hne : ¬ name = "") (h0 : strHasPref name "/" = false)
    (h1 : strHasSuff name "/" = false) (hobj : Store.get s name = none) :
    FileSystem.walkVisited s name = s.listUnder (name ++ "/") := by
  unfold FileSystem.walkVisited
  rw [trimLeadingSlash_noop name h0]
  rw [if_pos (by simp [hne, h1])]
  rw [stat_store_none s name h0 hobj]

/-- Store with an object at the bare key `"d"` and a child under `"d/"`. -/
def c2Store : Store := { objects := [("d", [1]), ("d/x", [2])], puts := [] }

/-- Store with only a child under `"d/"`. -/
def c2StoreDir : Store := { objects := [("d/x", [2])], puts := [] }

/-- C2, counterexample: in a store where children exist under `"d/"` but an
object also lives at the bare key `"d"`, `Walk "d"` visits only `"d"` and
never reaches `"d/x"` — it does not treat the key as a directory, contrary
to the claim that both RemoveAll and Walk do. -/
theorem C2_walk_counterexample :
    c2Store.listUnder "d/" ≠ [] ∧
    FileSystem.walkVisited c2Store "d" = ["d"] ∧
    ¬ ("d/x" ∈ FileSystem.walkVisited c2Store "d") := by decide

/-- C2 (amended): `RemoveAll` on a slash-free key with children under
`key ++ "/"` does treat the key as a directory and deletes every object
under the prefix.  `Walk`, however, first probes the bare key with `Stat`:
only when no object lives at the bare key does it traverse every object
under `key ++ "/"`; when the bare object exists, it visits exactly that
single key, even if children exist. -/
theorem C2_directory_resolution :
    (∀ (s : Store) (name : String),
      strHasPref name "/" = false → strHasSuff name "/" = false →
      s.listUnder (name ++ "/") ≠ [] →
      ∀ k, strHasPref k (name ++ "/") = true →
        Store.get (FileSystem.RemoveAll s name) k = none) ∧
    (∀ (s : Store) (name : String),
      ¬ name = "" → strHasPref name "/" = false → strHasSuff name "/" = false →
      Store.get s name = none →
      FileSystem.walkVisited s name = s.listUnder (name ++ "/") ∧
      ∀ k, Store.get s k ≠ none → strHasPref k (name ++ "/") = true →
        k ∈ FileSystem.walkVisited s name) ∧
    (∀ (s : Store) (name : String) (body : Bytes),
      ¬ name = "" → strHasPref name "/" = false → strHasSuff name "/" = false →
      Store.get s name = some body →
      FileSystem.walkVisited s name = [name]) := by
  refine ⟨?_, ?_, ?_⟩
  · intro s name h0 h1 h2 k hp
    rw [removeAll_dir_eq s name h0 h1 h2]
    exact get_removeUnder s (name ++ "/") k hp
  · intro s name hne h0 h1 hobj
    have hw := walkVisited_dir s name hne h0 h1 hobj
    refine ⟨hw, fun k hk hp => ?_⟩
    rw [hw]
    exact (mem_listUnder_iff s (name ++ "/") k).mpr ⟨(mem_keys_iff s k).mpr hk, hp⟩
  · intro s name body hne h0 h1 hobj
    exact walkVisited_file s name body hne h0 h1 hobj

/-- C2 witness: the amended statement evaluated on concrete stores — the
directory case deletes and walks `"d/x"`, the bare-object case visits only
`"d"`. -/
theorem C2_directory_resolution_witness :
    Store.get (FileSystem.RemoveAll c2StoreDir "d") "d/x" = none ∧
    FileSystem.walkVisited c2StoreDir "d" = ["d/x"] ∧
    "d/x" ∈ FileSystem.walkVisited c2StoreDir "d" ∧
    FileSystem.walkVisited c2Store "d" = ["d"] := by
  have h1 := C2_directory_resolution.1 c2StoreDir "d" (by decide) (by decide)
    (by decide) "d/x" (by decide)
  have h2 := C2_directory_resolution.2.1 c2StoreDir "d" (by decide) (by decide)
    (by decide) (by decide)
  have h3 := C2_directory_resolution.2.2 c2Store "d" [1] (by decide) (by decide)
    (by decide) (by decide)
  refine ⟨h1, ?_, h2.2 "d/x" (by decide) (by decide), h3⟩
  rw [h2.1]
  decide

/-! ## C3 — setPartSize checks only the minimum size -/

/-- A fresh session at key `"k"`. -/
def c3mu0 : MultipartUpload := newMultipartUpload "k" "uid"

/-- The session after one accepted part. -/
def c3mu1 : MultipartUpload :=
  (MultipartUpload.UploadPart c3mu0 [0] (.ok "etag1")).1

/-- C3, counterexample: after a part has been accepted the source still
lets `SetPartSize` succeed — the claimed rejection once a part is accepted
does not exist in the code. -/
theorem C3_setPartSize_counterexample :
    c3mu1.parts ≠ [] ∧
    MultipartUpload.SetPartSize c3mu1 MinPartSize
      = ({ c3mu1 with partSize := MinPartSize }, none) := by
  constructor
  · decide
  · rfl

/-- C3 (amended): a size below `MinPartSize` fails — with the wrapped
`ErrInvalidSeek` sentinel, the only too-small error the code has — and the
session, in particular `partSize`, is unchanged; any size at or above the
minimum is accepted unconditionally, whether or not parts have already been
submitted. -/
theorem C3_setPartSize_min_only (mu : MultipartUpload) (size : Nat) :
    (size < MinPartSize →
      MultipartUpload.SetPartSize mu size
        = (mu, some (.s3Error "SetPartSize" mu.key .errInvalidSeek))) ∧
    (MinPartSize ≤ size →
      MultipartUpload.SetPartSize mu size
        = ({ mu with partSize := size }, none)) := by
  constructor
  · intro h
    unfold MultipartUpload.SetPartSize
    rw [if_pos h]
  · intro h
    unfold MultipartUpload.SetPartSize
    rw [if_neg (by omega)]

/-- C3 witness: both branches of the amended statement on the session that
already accepted a part. -/
theorem C3_setPartSize_min_only_witness :
    MultipartUpload.SetPartSize c3mu1 4
      = (c3mu1, some (.s3Error "SetPartSize" "k" .errInvalidSeek)) ∧
    MultipartUpload.SetPartSize c3mu1 MinPartSize
      = ({ c3mu1 with partSize := MinPartSize }, none) :=
  ⟨(C3_setPartSize_min_only c3mu1 4).1 (by decide),
   (C3_setPartSize_min_only c3mu1 MinPartSize).2 (by decide)⟩

/-! ## C5 — the session invariant is preserved -/

/-- C5: a fresh session satisfies the invariant (counter 1, no parts);
a successful `UploadPart` appends exactly the record
`(etag, old counter)` and advances the counter by one, preserving the
invariant (so the recorded part numbers stay `1, 2, …` in ascending
order); a failed `UploadPart` returns the wrapped store error and leaves
the session untouched; `SetPartSize` never disturbs the invariant. -/
theorem C5_uploadPart_invariant :
    (∀ key uploadID, sessionInv (newMultipartUpload key uploadID)) ∧
    (∀ (mu : MultipartUpload) (data : Bytes) (etag : String), sessionInv mu →
      (MultipartUpload.UploadPart mu data (.ok etag)).2 = none ∧
      (MultipartUpload.UploadPart mu data (.ok etag)).1.parts
        = mu.parts ++ [(etag, mu.partNumber)] ∧
      (MultipartUpload.UploadPart mu data (.ok etag)).1.partNumber
        = mu.partNumber + 1 ∧
      sessionInv (MultipartUpload.UploadPart mu data (.ok etag)).1) ∧
    (∀ (mu : MultipartUpload) (data : Bytes) (e : String),
      MultipartUpload.UploadPart mu data (.error e)
        = (mu, some (.s3Error "UploadPart" mu.key (.storeErr e)))) ∧
    (∀ (mu : MultipartUpload) (size : Nat), sessionInv mu →
      sessionInv (MultipartUpload.SetPartSize mu size).1) := by
  refine ⟨?_, ?_, ?_, ?_⟩
  · intro key uploadID
    unfold sessionInv newMultipartUpload
    exact ⟨Nat.le_refl 1, rfl, rfl⟩
  · intro mu data etag hinv
    obtain ⟨h1, h2, h3⟩ := hinv
    refine ⟨rfl, rfl, rfl, ?_, ?_, ?_⟩
    · show 1 ≤ mu.partNumber + 1
      omega
    · show (mu.parts ++ [(etag, mu.partNumber)]).length = mu.partNumber + 1 - 1
      rw [List.length_append]
      simp
      omega
    · show (mu.parts ++ [(etag, mu.partNumber)]).map Prod.snd
        = List.range' 1 (mu.parts ++ [(etag, mu.partNumber)]).length
      have hpn : mu.partNumber = mu.parts.length + 1 := by omega
      rw [List.map_append, h3, List.length_append]
      simp [List.range'_concat, hpn]
      omega
  · intro mu data e
    rfl
  · intro mu size hinv
    unfold MultipartUpload.SetPartSize
    split
    · exact hinv
    · exact hinv

/-- Concrete fresh session for the C5 witness. -/
def c5mu : MultipartUpload := newMultipartUpload "w" "wid"

/-- C5 witness: the invariant statements evaluated after one accepted part
and after one failed part on a concrete session. -/
theorem C5_uploadPart_invariant_witness :
    sessionInv c5mu ∧
    (MultipartUpload.UploadPart c5mu [1] (.ok "e1")).2 = none ∧
    (MultipartUpload.UploadPart c5mu [1] (.ok "e1")).1.parts = [("e1", 1)] ∧
    (MultipartUpload.UploadPart c5mu [1] (.ok "e1")).1.partNumber = 2 ∧
    sessionInv (MultipartUpload.UploadPart c5mu [1] (.ok "e1")).1 ∧
    MultipartUpload.UploadPart c5mu [1] (.error "boom")
      = (c5mu, some (.s3Error "UploadPart" "w" (.storeErr "boom"))) := by
  have h0 := C5_uploadPart_invariant.1 "w" "wid"
  have h2 := C5_uploadPart_invariant.2.1 c5mu [1] "e1" h0
  have h3 := C5_uploadPart_invariant.2.2.1 c5mu [1] "boom"
  exact ⟨h0, h2.1, h2.2.1, h2.2.2.1, h2.2.2.2, h3⟩

/-! ## C6 -- uploadFromStream chunking -/

theorem ceilParts_eq_one (n P : Nat) (h1 : 0 < n) (h2 : n ≤ P) (hP : 0 < P) :
    ceilParts n P = 1 := by
  unfold ceilParts
  have ha : n + P - 1 = (n - 1) + P := by omega
  rw [ha, Nat.add_div_right _ hP, Nat.div_eq_of_lt (by omega)]

theorem ceilParts_step (n P : Nat) (hP : 0 < P) (h : P ≤ n) :
    ceilParts n P = 1 + ceilParts (n - P) P := by
  unfold ceilParts
  have ha : n + P - 1 = ((n - P) + P - 1) + P := by omega
  rw [ha, Nat.add_div_right _ hP]
  omega

theorem ceilParts_pos (n P : Nat) (hn : 0 < n) (hP : 0 < P) : 0 < ceilParts n P := by
  unfold ceilParts
  exact (Nat.one_le_div_iff hP).mpr (by omega)

theorem ceilParts_zero (P : Nat) (hP : 0 < P) : ceilParts 0 P = 0 := by
  unfold ceilParts
  exact Nat.div_eq_of_lt (by omega)

theorem uploadLoop_empty (oracle : Nat → Except String String) (mu : MultipartUpload)
    (i : Nat) :
    MultipartUpload.uploadFromReaderGo oracle mu [] none i = (mu, [], none) := by
  rw [MultipartUpload.uploadFromReaderGo]
  simp

theorem uploadLoop_last (oracle : Nat → Except String String) (mu : MultipartUpload)
    (src : Bytes) (i : Nat) (etag : String) (hor : oracle i = .ok etag)
    (hpos : 0 < src.length) (hlt : src.length < mu.partSize) :
    MultipartUpload.uploadFromReaderGo oracle mu src none i
      = ({ mu with parts := mu.parts ++ [(etag, mu.partNumber)],
                   partNumber := mu.partNumber + 1 }, [src], none) := by
  have hmin : min mu.partSize src.length = src.length := by omega
  rw [MultipartUpload.uploadFromReaderGo, if_neg (by simp), dif_neg (by omega), hor]
  simp only [MultipartUpload.UploadPart]
  rw [if_pos (by omega), hmin, List.take_length]

theorem uploadLoop_step (oracle : Nat → Except String String) (mu : MultipartUpload)
    (src : Bytes) (pe : Option String) (i : Nat) (etag : String)
    (hor : oracle i = .ok etag) (hP : 0 < mu.partSize) (hge : mu.partSize ≤ src.length) :
    MultipartUpload.uploadFromReaderGo oracle mu src pe i
      = ((MultipartUpload.uploadFromReaderGo oracle
            { mu with parts := mu.parts ++ [(etag, mu.partNumber)],
                      partNumber := mu.partNumber + 1 }
            (src.drop mu.partSize) pe (i + 1)).1,
         src.take mu.partSize ::
           (MultipartUpload.uploadFromReaderGo oracle
             { mu with parts := mu.parts ++ [(etag, mu.partNumber)],
                       partNumber := mu.partNumber + 1 }
             (src.drop mu.partSize) pe (i + 1)).2.1,
         (MultipartUpload.uploadFromReaderGo oracle
             { mu with parts := mu.parts ++ [(etag, mu.partNumber)],
                       partNumber := mu.partNumber + 1 }
             (src.drop mu.partSize) pe (i + 1)).2.2) := by
  have hmin : min mu.partSize src.length = mu.partSize := by omega
  rw [MultipartUpload.uploadFromReaderGo, if_neg (by simp; omega), dif_neg (by omega), hor]
  simp only [MultipartUpload.UploadPart]
  rw [if_neg (by omega), hmin]

theorem uploadLoop_readErr_base (oracle : Nat → Except String String)
    (mu : MultipartUpload) (src : Bytes) (e : String) (i : Nat)
    (hlt : src.length < mu.partSize) :
    MultipartUpload.uploadFromReaderGo oracle mu src (some e) i
      = (mu, [], some (.s3Error "UploadFromReader" mu.key (.storeErr e))) := by
  rw [MultipartUpload.uploadFromReaderGo, if_pos (by simp; omega)]
  simp

theorem uploadLoop_uploadErr_base (oracle : Nat → Except String String)
    (mu : MultipartUpload) (src : Bytes) (e : String) (i : Nat)
    (hor : oracle i = .error e) (hP : 0 < mu.partSize) (hpos : 0 < src.length) :
    MultipartUpload.uploadFromReaderGo oracle mu src none i
      = (mu, [src.take (min mu.partSize src.length)],
         some (.s3Error "UploadPart" mu.key (.storeErr e))) := by
  rw [MultipartUpload.uploadFromReaderGo, if_neg (by simp), dif_neg (by omega), hor]
  simp [MultipartUpload.UploadPart]

theorem uploadLoop_ok (tags : Nat → String) :
    ∀ (N : Nat) (mu : MultipartUpload) (src : Bytes) (i : Nat),
      src.length = N → 0 < mu.partSize → 0 < src.length →
      ((MultipartUpload.uploadFromReaderGo (fun j => .ok (tags j)) mu src none i).2.2 = none ∧
       (MultipartUpload.uploadFromReaderGo (fun j => .ok (tags j)) mu src none i).2.1.flatten
         = src ∧
       (MultipartUpload.uploadFromReaderGo (fun j => .ok (tags j)) mu src none i).2.1.length
         = ceilParts src.length mu.partSize ∧
       (∀ c ∈ (MultipartUpload.uploadFromReaderGo
           (fun j => .ok (tags j)) mu src none i).2.1.dropLast,
         c.length = mu.partSize) ∧
       (∀ c ∈ (MultipartUpload.uploadFromReaderGo (fun j => .ok (tags j)) mu src none i).2.1,
         0 < c.length ∧ c.length ≤ mu.partSize)) := by
  intro N
  induction N using Nat.strong_induction_on with
  | _ N ih =>
    intro mu src i hlen hP hpos
    by_cases hlt : src.length < mu.partSize
    · rw [uploadLoop_last (fun j => .ok (tags j)) mu src i (tags i) rfl hpos hlt]
      refine ⟨rfl, by simp, ?_, by simp, ?_⟩
      · simp [ceilParts_eq_one src.length mu.partSize hpos (by omega) hP]
      · intro c hc
        simp only [List.mem_singleton] at hc
        subst hc
        exact ⟨hpos, by omega⟩
    · have hge : mu.partSize ≤ src.length := by omega
      rw [uploadLoop_step (fun j => .ok (tags j)) mu src none i (tags i) rfl hP hge]
      set mu2 : MultipartUpload :=
        { mu with parts := mu.parts ++ [(tags i, mu.partNumber)],
                  partNumber := mu.partNumber + 1 } with hmu2
      set r := MultipartUpload.uploadFromReaderGo (fun j => .ok (tags j)) mu2
        (src.drop mu.partSize) none (i + 1) with hr
      have hinner : r.2.2 = none ∧ r.2.1.flatten = src.drop mu.partSize ∧
          r.2.1.length = ceilParts (src.length - mu.partSize) mu.partSize ∧
          (∀ c ∈ r.2.1.dropLast, c.length = mu.partSize) ∧
          (∀ c ∈ r.2.1, 0 < c.length ∧ c.length ≤ mu.partSize) := by
        by_cases hz : src.length = mu.partSize
        · have hd : src.drop mu.partSize = [] :=
            List.drop_eq_nil_of_le (by omega)
          rw [hr, hd, uploadLoop_empty]
          refine ⟨rfl, by simp [hd], ?_, by simp, by simp⟩
          simp [hz, ceilParts_zero mu.partSize hP]
        · have hlen2 : (src.drop mu.partSize).length = src.length - mu.partSize := by simp
          have hrec := ih (src.length - mu.partSize) (by omega) mu2 (src.drop mu.partSize)
            (i + 1) hlen2 hP (by simp; omega)
          simpa [hlen2, hmu2] using hrec
      obtain ⟨e1, e2, e3, e4, e5⟩ := hinner
      refine ⟨e1, ?_, ?_, ?_, ?_⟩
      · simp only [List.flatten_cons, e2, List.take_append_drop]
      · simp only [List.length_cons, e3]
        rw [ceilParts_step src.length mu.partSize hP hge]
        omega
      · intro c hc
        by_cases hnil : r.2.1 = []
        · rw [hnil] at hc
          simp at hc
        · rw [List.dropLast_cons_of_ne_nil hnil] at hc
          rcases List.mem_cons.mp hc with h | h
          · subst h
            simp
            omega
          · exact e4 c h
      · intro c hc
        rcases List.mem_cons.mp hc with h | h
        · subst h
          constructor
          · simp
            omega
          · simp
        · exact e5 c h

theorem uploadLoop_readErr (tags : Nat → String) (e : String) :
    ∀ (N : Nat) (mu : MultipartUpload) (src : Bytes) (i : Nat),
      src.length = N → 0 < mu.partSize →
      (MultipartUpload.uploadFromReaderGo (fun j => .ok (tags j)) mu src (some e) i).2.2
        = some (.s3Error "UploadFromReader" mu.key (.storeErr e)) := by
  intro N
  induction N using Nat.strong_induction_on with
  | _ N ih =>
    intro mu src i hlen hP
    by_cases hlt : src.length < mu.partSize
    · rw [uploadLoop_readErr_base _ mu src e i hlt]
    · have hge : mu.partSize ≤ src.length := by omega
      rw [uploadLoop_step (fun j => .ok (tags j)) mu src (some e) i (tags i) rfl hP hge]
      have hlen2 : (src.drop mu.partSize).length = src.length - mu.partSize := by simp
      exact ih (src.length - mu.partSize) (by omega) _ (src.drop mu.partSize) (i + 1) hlen2 hP

/-- C6: with every store upload succeeding and the source stream delivering
`N > 0` bytes then a clean EOF, the loop uploads exactly
`ceil(N / partSize)` chunks whose concatenation is the source, every chunk
except possibly the last has exactly `partSize` bytes, every chunk is
nonempty and at most `partSize` bytes (the final partial chunk is uploaded),
and the loop ends cleanly with no error.  Second clause: a reader that ends
in a real error makes the loop abort with that error wrapped.  Third
clause: a store rejection of a part aborts the loop at once, propagating
the wrapped upload error with the session unchanged. -/
theorem C6_uploadFromStream_chunks :
    (∀ (tags : Nat → String) (mu : MultipartUpload) (src : Bytes) (i : Nat),
      0 < mu.partSize → 0 < src.length →
      ((MultipartUpload.uploadFromReaderGo (fun j => .ok (tags j)) mu src none i).2.2
         = none ∧
       (MultipartUpload.uploadFromReaderGo (fun j => .ok (tags j)) mu src none i).2.1.flatten
         = src ∧
       (MultipartUpload.uploadFromReaderGo (fun j => .ok (tags j)) mu src none i).2.1.length
         = ceilParts src.length mu.partSize ∧
       (∀ c ∈ (MultipartUpload.uploadFromReaderGo
           (fun j => .ok (tags j)) mu src none i).2.1.dropLast,
         c.length = mu.partSize) ∧
       (∀ c ∈ (MultipartUpload.uploadFromReaderGo
           (fun j => .ok (tags j)) mu src none i).2.1,
         0 < c.length ∧ c.length ≤ mu.partSize))) ∧
    (∀ (tags : Nat → String) (e : String) (mu : MultipartUpload) (src : Bytes) (i : Nat),
      0 < mu.partSize →
      (MultipartUpload.uploadFromReaderGo (fun j => .ok (tags j)) mu src (some e) i).2.2
        = some (.s3Error "UploadFromReader" mu.key (.storeErr e))) ∧
    (∀ (oracle : Nat → Except String String) (mu : MultipartUpload) (src : Bytes)
        (e : String) (i : Nat),
      oracle i = .error e → 0 < mu.partSize → 0 < src.length →
      MultipartUpload.uploadFromReaderGo oracle mu src none i
        = (mu, [src.take (min mu.partSize src.length)],
           some (.s3Error "UploadPart" mu.key (.storeErr e)))) :=
  ⟨fun tags mu src i hP hpos => uploadLoop_ok tags src.length mu src i rfl hP hpos,
   fun tags e mu src i hP => uploadLoop_readErr tags e src.length mu src i rfl hP,
   fun oracle mu src e i hor hP hpos =>
     uploadLoop_uploadErr_base oracle mu src e i hor hP hpos⟩

/-- Concrete session with a 2-byte part size for the C6 witness. -/
def c6mu : MultipartUpload := { newMultipartUpload "u" "uid6" with partSize := 2 }

/-- C6 witness: a 3-byte stream with 2-byte parts gives two chunks
(`ceil(3/2)`), concatenating back to the source; a trailing read error and
a rejected part each abort with the wrapped error. -/
theorem C6_uploadFromStream_chunks_witness :
    ((MultipartUpload.uploadFromReaderGo (fun j => .ok (toString j))
        c6mu [0, 1, 2] none 0).2.2 = none ∧
     (MultipartUpload.uploadFromReaderGo (fun j => .ok (toString j))
        c6mu [0, 1, 2] none 0).2.1.flatten = [0, 1, 2] ∧
     (MultipartUpload.uploadFromReaderGo (fun j => .ok (toString j))
        c6mu [0, 1, 2] none 0).2.1.length = ceilParts 3 2 ∧
     (∀ c ∈ (MultipartUpload.uploadFromReaderGo (fun j => .ok (toString j))
        c6mu [0, 1, 2] none 0).2.1.dropLast, c.length = 2) ∧
     (∀ c ∈ (MultipartUpload.uploadFromReaderGo (fun j => .ok (toString j))
        c6mu [0, 1, 2] none 0).2.1, 0 < c.length ∧ c.length ≤ 2)) ∧
    (MultipartUpload.uploadFromReaderGo (fun j => .ok (toString j))
        c6mu [0, 1] (some "boom") 0).2.2
      = some (.s3Error "UploadFromReader" "u" (.storeErr "boom")) ∧
    MultipartUpload.uploadFromReaderGo (fun _ => .error "rej") c6mu [0, 1, 2] none 0
      = (c6mu, [[0, 1]], some (.s3Error "UploadPart" "u" (.storeErr "rej"))) :=
  ⟨C6_uploadFromStream_chunks.1 (fun j => toString j) c6mu [0, 1, 2] 0
     (by decide) (by decide),
   C6_uploadFromStream_chunks.2.1 (fun j => toString j) "boom" c6mu [0, 1] 0 (by decide),
   C6_uploadFromStream_chunks.2.2 (fun _ => .error "rej") c6mu [0, 1, 2] "rej" 0 rfl
     (by decide) (by decide)⟩

end S3fs
